import Mathlib

/-!
The supervisor loop of `src/c/src/supervise.c`

A shallow embedding of the event-driven supervisor loop.  The program state
(`called_filicide`, the locals of `supervise`) and the part of the operating
system the program talks to (the table of children, the outcomes of system
calls) are explicit; every externally visible action is appended to a trace.

Outcomes of `read`/`write`/`poll` are inputs: each wake of the loop supplies
the results that the successive system calls on each descriptor produce,
together with the table of children as it is at that moment.  A descriptor
whose list of pending read results is used up behaves as a non-blocking
descriptor with nothing available (`EAGAIN`); a status write beyond the
supplied results transfers the whole record.  Within a wake the table of
children changes only through `waitid`.
-/

namespace Supervise

/-! ## Constants of the platform (Linux) -/

def ECHILD : Nat := 10
def EAGAIN : Nat := 11
def EINVAL : Nat := 22
def EPIPE : Nat := 32

def POLLIN : Nat := 0x001
def POLLERR : Nat := 0x008
def POLLHUP : Nat := 0x010
def POLLNVAL : Nat := 0x020
def POLLRDHUP : Nat := 0x2000

def WNOHANG : Nat := 1
def WEXITED : Nat := 4
def WNOWAIT : Nat := 0x01000000

def P_ALL : Nat := 0
def P_PID : Nat := 1

def SIGCHLD : Nat := 17

/-- Size in bytes of `siginfo_t`, the status record written to `statusfd`. -/
def sizeof_siginfo : Nat := 128

/-- Size in bytes of `struct signalfd_siginfo`. -/
def sizeof_signalfd_siginfo : Nat := 128

/-- Modelled from the spec: `struct supervise_send_signal` is declared in
`supervise_protocol.h`, which is not among the sources.  The control record is
`pid (signed, platform-width), signal number (signed 32-bit)`: two 4-byte
fields. -/
def sizeof_send_signal : Nat := 8

/-! ## Data model -/

/-- Result of a system call: a non-negative return value, or `-1` with `errno`. -/
inductive SysRet where
  | ok (n : Nat)
  | err (errno : Nat)
deriving DecidableEq, Repr

/-- The C return value of a system call. -/
def SysRet.ret : SysRet → Int
  | .ok n => (n : Int)
  | .err _ => -1

/-- The value of `errno` after a system call (0 when the call set none). -/
def SysRet.errno : SysRet → Nat
  | .ok _ => 0
  | .err e => e

/-- The control record `{pid, signal}`. -/
structure supervise_send_signal where
  pid : Int
  signal : Int
deriving DecidableEq, Repr

/-- One `read(controlfd, &signal, sizeof(signal))`: its result and the
contents of the buffer afterwards. -/
structure CtlRead where
  ret : SysRet
  signal : supervise_send_signal
deriving DecidableEq, Repr

/-- The fields of `siginfo_t` that `waitid` fills in. -/
structure siginfo_t where
  si_pid : Int
  si_uid : Nat
  si_signo : Nat
  si_status : Int
  si_code : Int
deriving DecidableEq, Repr

/-- An entry of the kernel's table of children of the supervisor.
`waitable` holds when the child has terminated and has not been waited for. -/
structure Child where
  pid : Int
  uid : Nat
  waitable : Bool
  status : Int
  code : Int
deriving DecidableEq, Repr

/-- Externally visible actions. -/
inductive Event where
  | kill (pid : Int) (sig : Int)
  | reaped (c : Child)
  | status_write (info : siginfo_t) (r : SysRet)
  | filicide
  | close (fd : Int)
deriving DecidableEq, Repr

/-- Program state together with the operating-system state it acts on. -/
structure Machine where
  /-- The global `called_filicide`. -/
  called_filicide : Bool
  /-- Whether `filicide_once` has been registered with `atexit`. -/
  atexit_registered : Bool
  /-- The local `statusfd` of `supervise`. -/
  statusfd : Int
  /-- The field `pollfds[0].fd`. -/
  pollfd0 : Int
  /-- The field `pollfds[1].fd`. -/
  pollfd1 : Int
  /-- The kernel's table of children. -/
  children : List Child
  /-- Results of the successive `write(statusfd, ...)` calls still to come;
  once used up, a write transfers the whole record. -/
  statusWrites : List SysRet
  /-- The actions performed so far, oldest first. -/
  trace : List Event
deriving DecidableEq, Repr

/-- Outcome of running a piece of the program: still running, or the process
has terminated with an exit code. -/
inductive Res where
  | running (m : Machine)
  | exited (code : Int) (m : Machine)
deriving DecidableEq, Repr

/-- The machine an outcome carries. -/
def Res.machine : Res → Machine
  | .running m => m
  | .exited _ m => m

/-- The exit code of an outcome, if the process has terminated. -/
def Res.code : Res → Option Int
  | .running _ => none
  | .exited c _ => some c

/-- Sequencing: the rest of the program runs only while the process has
neither terminated nor run out of fuel. -/
def andThen (r : Option Res) (f : Machine → Option Res) : Option Res :=
  match r with
  | some (.running m) => f m
  | other => other

/-- Conversion of an `int`/`ssize_t` to `size_t` (64 bits). -/
def toSizeT (x : Int) : Nat := (x % (2 ^ 64 : Int)).toNat

/-- Append an action to the trace. -/
def Machine.emit (m : Machine) (e : Event) : Machine :=
  { m with trace := m.trace ++ [e] }

/-! ## External collaborators -/

/-- Modelled from the spec: `filicide()` of the subreaper library
(`subreap_lib.h`, not among the sources) terminates every descendant of the
calling process; here it is one action of the trace. -/
def filicide (m : Machine) : Machine := m.emit .filicide

/-- Modelled from the spec: the body of `try_function` (declared in
`common.h`, defined elsewhere).  A negative return value is fatal: the caller
ends the process through `exit 1`, the finalizer included (`none` here).  The
would-block condition of a non-blocking descriptor is passed through, as the
loops that drain a descriptor rely on it. -/
def try_function (r : SysRet) : Option Int :=
  match r with
  | .ok n => some (n : Int)
  | .err e => if e = EAGAIN then some (-1) else none

/-! ## System calls -/

/-- Whether `waitid(idtype, id, ...)` considers child `c`. -/
def selects (idtype : Nat) (id : Int) (c : Child) : Bool :=
  idtype = P_ALL || (idtype = P_PID && c.pid = id)

/-- The record `waitid` stores for child `c`. -/
def Child.info (c : Child) : siginfo_t :=
  { si_pid := c.pid, si_uid := c.uid, si_signo := SIGCHLD,
    si_status := c.status, si_code := c.code }

/-- The call `waitid(idtype, id, infop, options)` with `WEXITED|WNOHANG` among
the options, on the table of children: the result, the child reported (if
any) and the table afterwards.  The child reported is removed from the table
unless `WNOWAIT` is given. -/
def waitid (idtype : Nat) (id : Int) (options : Nat) (children : List Child) :
    SysRet × Option Child × List Child :=
  if idtype = P_PID ∧ id ≤ 0 then (.err EINVAL, none, children)
  else
    match children.filter (selects idtype id) with
    | [] => (.err ECHILD, none, children)
    | c :: cs =>
      match (c :: cs).find? (fun d => d.waitable) with
      | none => (.ok 0, none, children)
      | some d =>
        (.ok 0, some d, if options &&& WNOWAIT ≠ 0 then children else children.erase d)

/-- The call `waitid` on the machine: the kernel's table is updated and a
removed child is recorded in the trace. -/
def sys_waitid (idtype : Nat) (id : Int) (options : Nat) (m : Machine) :
    SysRet × Option Child × Machine :=
  match waitid idtype id options m.children with
  | (r, none, cs) => (r, none, { m with children := cs })
  | (r, some d, cs) =>
    (r, some d,
      if options &&& WNOWAIT ≠ 0 then { m with children := cs }
      else ({ m with children := cs }).emit (.reaped d))

/-- The call `kill(pid, sig)`; its result is not looked at by the program. -/
def sys_kill (pid sig : Int) (m : Machine) : Machine := m.emit (.kill pid sig)

/-- The call `write(statusfd, &childinfo, sizeof(childinfo))`. -/
def sys_write (info : siginfo_t) (m : Machine) : SysRet × Machine :=
  match m.statusWrites with
  | [] => (.ok sizeof_siginfo,
      { m with trace := m.trace ++ [.status_write info (.ok sizeof_siginfo)] })
  | r :: rest =>
    (r, { m with statusWrites := rest, trace := m.trace ++ [.status_write info r] })

/-- The call `close(fd)`. -/
def sys_close (fd : Int) (m : Machine) : Machine := m.emit (.close fd)

/-! ## The program -/

/-- The function `filicide_once`. -/
def filicide_once (m : Machine) : Machine :=
  if !m.called_filicide then
    { filicide m with called_filicide := true }
  else m

/-- Process termination through `exit`, `err` or `errx`: the handlers
registered with `atexit` run, then the process ends with `code`. -/
def exit (code : Int) (m : Machine) : Res :=
  .exited code (if m.atexit_registered then filicide_once m else m)

/-- The function `handle_send_signal`. -/
def handle_send_signal (signal : supervise_send_signal) (m : Machine) : Machine :=
  let (r, _, m1) := sys_waitid P_PID signal.pid (WEXITED ||| WNOHANG ||| WNOWAIT) m
  if r.ret ≥ 0 then sys_kill signal.pid signal.signal m1 else m1

/-- The function `read_controlfd`, on the results of the successive reads. -/
def read_controlfd : List CtlRead → Machine → Res
  | [], m =>
    -- nothing available: read fails with EAGAIN, try_ passes -1 through
    .running m
  | r :: rest, m =>
    match try_function r.ret with
    | none => exit 1 m
    | some size =>
      if size > 0 then
        if toSizeT size ≠ sizeof_send_signal then exit 1 m
        else read_controlfd rest (handle_send_signal r.signal m)
      else .running m

/-- The function `read_fatalfd`, on the results of the successive reads. -/
def read_fatalfd : List SysRet → Machine → Res
  | [], m => .running m
  | r :: rest, m =>
    match try_function r with
    | none => exit 1 m
    | some n =>
      if toSizeT n = sizeof_signalfd_siginfo then read_fatalfd rest (filicide_once m)
      else .running m

/-- The zero-initialised `siginfo_t childinfo = {}`. -/
def childinfo_zero : siginfo_t :=
  { si_pid := 0, si_uid := 0, si_signo := 0, si_status := 0, si_code := 0 }

/-- The inner `for (;;)` loop of `read_childfd`.  `none` means the fuel ran
out before the loop was left. -/
def reap_loop (statusfd : Int) : Nat → siginfo_t → Machine → Option Res
  | 0, _, _ => none
  | fuel + 1, childinfo, m =>
    let childinfo0 := { childinfo with si_pid := 0 }
    match sys_waitid P_ALL 0 (WEXITED ||| WNOHANG) m with
    | (ret, found, m1) =>
      let childinfo1 := match found with
        | none => childinfo0
        | some d => d.info
      if ret.ret = -1 ∧ ret.errno = ECHILD then some (exit 0 m1)
      else if childinfo1.si_pid = 0 then some (.running m1)
      else if statusfd ≠ -1 then
        match sys_write childinfo1 m1 with
        | (w, m2) =>
          let written := toSizeT w.ret
          if written = toSizeT (-1) then
            if w.errno = EPIPE then reap_loop statusfd fuel childinfo1 m2
            else some (exit 1 m2)
          else if written ≠ sizeof_siginfo then some (exit 1 m2)
          else reap_loop statusfd fuel childinfo1 m2
      else reap_loop statusfd fuel childinfo1 m1

/-- The function `read_childfd`, on the results of the successive reads of
`childfd`.  The inner loop gets one unit of fuel per child in the table, and
one more. -/
def read_childfd (statusfd : Int) : List SysRet → Machine → Option Res
  | [], m => some (.running m)
  | r :: rest, m =>
    match try_function r with
    | none => some (exit 1 m)
    | some n =>
      if toSizeT n = sizeof_signalfd_siginfo then
        andThen (reap_loop statusfd (m.children.length + 1) childinfo_zero m)
          (read_childfd statusfd rest)
      else some (.running m)

/-! ## The supervisor loop -/

/-- What the environment supplies for one wake of the loop: the result of
`poll`, the readiness flags of the four descriptors, the results of the reads
and writes performed during the wake, and the table of children at the time
of the wake. -/
structure Wake where
  pollRet : SysRet
  ready0 : Nat
  ready1 : Nat
  ready2 : Nat
  ready3 : Nat
  controlReads : List CtlRead
  childReads : List SysRet
  fatalReads : List SysRet
  children : List Child
  statusWrites : List SysRet
deriving DecidableEq, Repr

/-- The descriptors that stay fixed during `supervise`. -/
structure Fds where
  controlfd : Int
  childfd : Int
  fatalfd : Int
deriving DecidableEq, Repr

/-- The field `revents` that `poll` stores for an entry: entries with a
negative `fd` are skipped and get 0. -/
def revents (fd : Int) (ready : Nat) : Nat := if fd < 0 then 0 else ready

/-- The mask `POLLERR|POLLNVAL|POLLRDHUP|POLLHUP`. -/
def closedMask : Nat := POLLERR ||| POLLNVAL ||| POLLRDHUP ||| POLLHUP

/-- The mask `POLLERR|POLLHUP|POLLNVAL`. -/
def errorMask : Nat := POLLERR ||| POLLHUP ||| POLLNVAL

/-- Lines 120-130 of `supervise`: the control channel. -/
def supervise_control (fds : Fds) (wk : Wake) (m : Machine) : Res :=
  let r0 := revents m.pollfd0 wk.ready0
  let res := if r0 &&& POLLIN ≠ 0 then read_controlfd wk.controlReads m else .running m
  match res with
  | .running m1 =>
    if r0 &&& closedMask ≠ 0 then
      .running (filicide_once { sys_close fds.controlfd m1 with pollfd0 := -1 })
    else .running m1
  | e => e

/-- Lines 131-137 of `supervise`: the status channel. -/
def supervise_status (wk : Wake) (m : Machine) : Machine :=
  if revents m.pollfd1 wk.ready1 &&& closedMask ≠ 0 then
    { sys_close m.statusfd m with pollfd1 := -1, statusfd := -1 }
  else m

/-- Lines 138-140 of `supervise`: the child-change source. -/
def supervise_child (fds : Fds) (wk : Wake) (m : Machine) : Option Res :=
  if revents fds.childfd wk.ready2 &&& POLLIN ≠ 0 then
    read_childfd m.statusfd wk.childReads m
  else some (.running m)

/-- Lines 141-143 of `supervise`: the fatal source. -/
def supervise_fatal (fds : Fds) (wk : Wake) (m : Machine) : Res :=
  if revents fds.fatalfd wk.ready3 &&& POLLIN ≠ 0 then read_fatalfd wk.fatalReads m
  else .running m

/-- Lines 144-147 of `supervise`: error events on the signal sources. -/
def supervise_check (fds : Fds) (wk : Wake) (m : Machine) : Res :=
  if revents fds.childfd wk.ready2 &&& errorMask ≠ 0 ∨
      revents fds.fatalfd wk.ready3 &&& errorMask ≠ 0 then exit 1 m
  else .running m

/-- One iteration of the `for (;;)` loop of `supervise`.  What happened to
the children and to the status channel since the previous wake is taken from
the wake. -/
def loop_body (fds : Fds) (wk : Wake) (m0 : Machine) : Option Res :=
  let m := { m0 with children := wk.children, statusWrites := wk.statusWrites }
  match try_function wk.pollRet with
  | none => some (exit 1 m)
  | some _ =>
    andThen (some (supervise_control fds wk m)) fun m1 =>
    andThen (supervise_child fds wk (supervise_status wk m1)) fun m2 =>
    andThen (some (supervise_fatal fds wk m2)) fun m3 =>
    some (supervise_check fds wk m3)

/-- The `for (;;)` loop of `supervise` over the wakes the environment
supplies; when they are used up the process stays blocked in `poll`. -/
def loop (fds : Fds) : List Wake → Machine → Option Res
  | [], m => some (.running m)
  | wk :: rest, m => andThen (loop_body fds wk m) (loop fds rest)

/-- The state of the process when `supervise` enters its loop: `atexit` has
registered `filicide_once` and nothing has been done yet. -/
def initial (controlfd statusfd : Int) : Machine :=
  { called_filicide := false, atexit_registered := true, statusfd := statusfd,
    pollfd0 := controlfd, pollfd1 := statusfd, children := [], statusWrites := [],
    trace := [] }

/-- The function `supervise`; `childfd` and `fatalfd` are what `get_childfd`
and `get_fatalfd` returned. -/
def supervise (controlfd statusfd childfd fatalfd : Int) (wakes : List Wake) : Option Res :=
  loop { controlfd := controlfd, childfd := childfd, fatalfd := fatalfd } wakes
    (initial controlfd statusfd)

/-! ## Observations on traces -/

/-- Number of calls of `filicide()` recorded in the trace. -/
def filicide_calls (m : Machine) : Nat := m.trace.count .filicide

/-- The signals delivered, in order. -/
def kills_of (t : List Event) : List (Int × Int) :=
  t.filterMap fun e => match e with
    | .kill p s => some (p, s)
    | _ => none

/-- The records of the children reaped, in order. -/
def reaped_of (t : List Event) : List siginfo_t :=
  t.filterMap fun e => match e with
    | .reaped c => some c.info
    | _ => none

/-- The records of the status writes attempted, in order. -/
def written_of (t : List Event) : List siginfo_t :=
  t.filterMap fun e => match e with
    | .status_write i _ => some i
    | _ => none

/-! ## Definitions used in the statements -/

/-- The invariant tying the flag to the number of `filicide()` calls. -/
def Inv (m : Machine) : Prop :=
  filicide_calls m = if m.called_filicide then 1 else 0

/-- The options of the probe in `handle_send_signal`. -/
def probe_options : Nat := WEXITED ||| WNOHANG ||| WNOWAIT

/-- Whether the probe of `handle_send_signal` succeeds for `pid`. -/
def probe (cs : List Child) (pid : Int) : Bool :=
  decide (0 ≤ (waitid P_PID pid probe_options cs).1.ret)

/-- The kill actions for the control records whose probe succeeds. -/
def kills_for (cs : List Child) (reads : List CtlRead) : List Event :=
  (reads.filter fun r => probe cs r.signal.pid).map
    fun r => Event.kill r.signal.pid r.signal.signal

/-- A machine on which the invariant holds and the finalizer is registered. -/
def MGood (m : Machine) : Prop := Inv m ∧ m.atexit_registered = true

/-- An outcome whose machine is good and which, if the process has
terminated, has called `filicide()`. -/
def RGood (r : Res) : Prop :=
  MGood r.machine ∧ (r.code ≠ none → r.machine.called_filicide = true)

/-- The machine after the kernel has removed the zombie `d`. -/
def Machine.reap (m : Machine) (d : Child) : Machine :=
  ({ m with children := m.children.erase d }).emit (.reaped d)

/-- What `read_childfd` does with the result `w` of a status write, `m2`
being the machine after the write and `k` the rest of the loop. -/
def after_write (w : SysRet) (m2 : Machine) (k : Machine → Option Res) : Option Res :=
  if toSizeT w.ret = toSizeT (-1) then
    if w.errno = EPIPE then k m2 else some (exit 1 m2)
  else if toSizeT w.ret ≠ sizeof_siginfo then some (exit 1 m2)
  else k m2

/-- A table with one running child, pid 100. -/
def one_child : Machine :=
  { initial 0 1 with
    children := [{ pid := 100, uid := 1000, waitable := false, status := 0, code := 0 }] }

/-- A wake in which only the child-change source is readable and the
supervisor has no children. -/
def wake_no_children : Wake :=
  { pollRet := .ok 1, ready0 := 0, ready1 := 0, ready2 := POLLIN, ready3 := 0,
    controlReads := [], childReads := [.ok 128], fatalReads := [],
    children := [], statusWrites := [] }

/-- A result of a status write that is not fatal: the whole record was
transferred, or the peer has gone (`EPIPE`). -/
def benign (w : SysRet) : Prop := w = .ok sizeof_siginfo ∨ w = .err EPIPE

/-- Two terminated children; the first status write fails with `EIO`. -/
def two_zombies_write_error : Machine :=
  { initial 0 1 with
    children := [{ pid := 100, uid := 1000, waitable := true, status := 0, code := 1 },
                 { pid := 102, uid := 1000, waitable := true, status := 9, code := 2 }],
    statusWrites := [.err 5] }

/-- Two terminated children; the peer of the status channel has gone. -/
def two_zombies_peer_gone : Machine :=
  { initial 0 1 with
    children := [{ pid := 100, uid := 1000, waitable := true, status := 0, code := 1 },
                 { pid := 102, uid := 1000, waitable := true, status := 9, code := 2 }],
    statusWrites := [.err EPIPE, .err EPIPE] }

/-- Actions that do not concern the status channel or the closing of
descriptors. -/
def Event.observable : Event → Bool
  | .status_write _ _ => false
  | .close _ => false
  | _ => true

/-- The trace without status writes and without closings of descriptors. -/
def observe (t : List Event) : List Event := t.filter Event.observable

/-- Machine `a` of a run with the status channel open and machine `b` of a
run with the status channel closed agree on everything but the status
channel. -/
def Sim (a b : Machine) : Prop :=
  a.called_filicide = b.called_filicide ∧ a.atexit_registered = b.atexit_registered ∧
  a.pollfd0 = b.pollfd0 ∧ a.children = b.children ∧
  observe a.trace = observe b.trace ∧ b.statusfd = -1 ∧ b.pollfd1 = -1 ∧
  ∀ w ∈ a.statusWrites, benign w

/-- Outcomes that agree on the exit decision and on everything but the status
channel. -/
def SimR (ra rb : Res) : Prop := ra.code = rb.code ∧ Sim ra.machine rb.machine

/-- Two runs that both produce an outcome, the outcomes agreeing. -/
def OSim (x y : Option Res) : Prop :=
  ∃ ra rb, x = some ra ∧ y = some rb ∧ SimR ra rb

/-- A machine whose status channel is closed and whose trace holds the status
writes `W`. -/
def Closed (W : List siginfo_t) (m : Machine) : Prop :=
  m.statusfd = -1 ∧ written_of m.trace = W

/-- A wake in which the child-change source is readable, one child has
terminated, another is running, and the status write fails with `EIO`. -/
def wake_write_error : Wake :=
  { pollRet := .ok 1, ready0 := 0, ready1 := 0, ready2 := POLLIN, ready3 := 0,
    controlReads := [], childReads := [.ok 128], fatalReads := [],
    children := [{ pid := 100, uid := 1000, waitable := true, status := 0, code := 1 },
                 { pid := 101, uid := 1000, waitable := false, status := 0, code := 0 }],
    statusWrites := [.err 5] }

/-- The same wake, the status write failing with `EPIPE`. -/
def wake_peer_gone : Wake :=
  { wake_write_error with statusWrites := [.err EPIPE] }

/-- The descriptors of the examples. -/
def fds0 : Fds := { controlfd := 0, childfd := 3, fatalfd := 4 }

/-- A wake in which the control channel is readable, without any closing flag,
and the read returns zero bytes. -/
def wake_control_eof : Wake :=
  { pollRet := .ok 1, ready0 := POLLIN, ready1 := 0, ready2 := 0, ready3 := 0,
    controlReads := [⟨.ok 0, ⟨0, 0⟩⟩], childReads := [], fatalReads := [],
    children := [], statusWrites := [] }

theorem filicide_once_of_called (m : Machine) (h : m.called_filicide = true) :
    filicide_once m = m := by
  simp [filicide_once, h]

theorem filicide_once_called (m : Machine) : (filicide_once m).called_filicide = true := by
  unfold filicide_once
  split <;> simp_all

theorem filicide_calls_once (m : Machine) (h : m.called_filicide = false) :
    filicide_calls (filicide_once m) = filicide_calls m + 1 := by
  simp [filicide_once, h, filicide, Machine.emit, filicide_calls, List.count_append]

theorem iterate_filicide_once (m : Machine) (n : Nat) :
    filicide_once^[n + 1] m = filicide_once m := by
  induction n with
  | zero => rfl
  | succ k ih =>
    rw [Function.iterate_succ_apply', ih]
    exact filicide_once_of_called _ (filicide_once_called m)

theorem waitid_ret (idtype : Nat) (id : Int) (o : Nat) (cs : List Child) :
    (waitid idtype id o cs).1 =
      if idtype = P_PID ∧ id ≤ 0 then .err EINVAL
      else if cs.filter (selects idtype id) = [] then .err ECHILD else .ok 0 := by
  unfold waitid
  split
  · rfl
  · split
    · next h => simp [h]
    · next c rest h =>
      simp only [h]
      split <;> simp

theorem waitid_nowait (idtype : Nat) (id : Int) (o : Nat) (cs : List Child)
    (h : o &&& WNOWAIT ≠ 0) : (waitid idtype id o cs).2.2 = cs := by
  unfold waitid
  split
  · rfl
  · split
    · rfl
    · split <;> simp [h]

theorem probe_iff (cs : List Child) (pid : Int) (o : Nat) :
    0 ≤ (waitid P_PID pid o cs).1.ret ↔ (0 < pid ∧ ∃ c ∈ cs, c.pid = pid) := by
  rw [waitid_ret]
  by_cases hp : pid ≤ 0
  · simp only [hp, and_self, if_true, SysRet.ret]
    constructor
    · intro h; omega
    · intro h; omega
  · have hp' : 0 < pid := by omega
    simp only [hp, and_false, if_false]
    by_cases hf : cs.filter (selects P_PID pid) = []
    · simp only [hf, if_true, SysRet.ret]
      constructor
      · intro h; omega
      · rintro ⟨_, c, hc, rfl⟩
        have : c ∈ cs.filter (selects P_PID c.pid) := by
          simp [List.mem_filter, hc, selects, P_PID, P_ALL]
        rw [hf] at this
        cases this
    · simp only [hf, if_false, SysRet.ret]
      obtain ⟨c, hc⟩ := List.exists_mem_of_ne_nil _ hf
      rw [List.mem_filter] at hc
      have hcp : c.pid = pid := by
        have := hc.2
        simpa [selects, P_PID, P_ALL] using this
      simp only [Nat.cast_zero, le_refl, true_iff]
      exact ⟨hp', c, hc.1, hcp⟩

theorem sys_waitid_nowait (idtype : Nat) (id : Int) (o : Nat) (m : Machine)
    (h : o &&& WNOWAIT ≠ 0) :
    (sys_waitid idtype id o m).1 = (waitid idtype id o m.children).1 ∧
    (sys_waitid idtype id o m).2.2 = m := by
  have hc := waitid_nowait idtype id o m.children h
  unfold sys_waitid
  split
  · next r cs heq => simp_all
  · next r d cs heq => simp_all

theorem handle_send_signal_eq (s : supervise_send_signal) (m : Machine) :
    handle_send_signal s m =
      if probe m.children s.pid then m.emit (.kill s.pid s.signal) else m := by
  have h := sys_waitid_nowait P_PID s.pid probe_options m (by decide)
  unfold handle_send_signal probe
  generalize hw : sys_waitid P_PID s.pid (WEXITED ||| WNOHANG ||| WNOWAIT) m = w at *
  obtain ⟨r, f, m1⟩ := w
  have e : sys_waitid P_PID s.pid probe_options m = (r, f, m1) := hw
  rw [e] at h
  simp only at h
  obtain ⟨h1, h2⟩ := h
  subst h2
  simp only [ge_iff_le, sys_kill, ← h1, decide_eq_true_eq]

theorem read_controlfd_whole (reads : List CtlRead) (m : Machine)
    (hw : ∀ r ∈ reads, r.ret = .ok sizeof_send_signal) :
    read_controlfd reads m =
      .running { m with trace := m.trace ++ kills_for m.children reads } := by
  induction reads generalizing m with
  | nil => simp [read_controlfd, kills_for]
  | cons r rest ih =>
    have hr : r.ret = .ok sizeof_send_signal := hw r (by simp)
    have hrest : ∀ r ∈ rest, r.ret = .ok sizeof_send_signal :=
      fun x hx => hw x (by simp [hx])
    simp only [read_controlfd, hr, try_function]
    rw [if_pos (by decide), if_neg (by decide), ih _ hrest, handle_send_signal_eq]
    by_cases hp : probe m.children r.signal.pid = true
    · simp [hp, kills_for, Machine.emit, List.filter_cons]
    · simp [hp, kills_for, List.filter_cons]

theorem MGood_emit (m : Machine) (e : Event) (he : e ≠ .filicide) (h : MGood m) :
    MGood (m.emit e) := by
  obtain ⟨h1, h2⟩ := h
  refine ⟨?_, h2⟩
  unfold Inv filicide_calls at *
  simp only [Machine.emit, List.count_append, h1]
  have : List.count Event.filicide [e] = 0 := by
    simp [List.count_cons, List.count_nil]
    exact he
  simp [this]

theorem MGood_filicide_once (m : Machine) (h : MGood m) : MGood (filicide_once m) := by
  obtain ⟨h1, h2⟩ := h
  unfold filicide_once
  by_cases hc : m.called_filicide = true
  · simp [hc]; exact ⟨h1, h2⟩
  · simp only [Bool.not_eq_true] at hc
    simp only [hc, Bool.not_false, if_true]
    refine ⟨?_, h2⟩
    unfold Inv filicide_calls at *
    simp [filicide, Machine.emit, List.count_append, h1, hc]

theorem RGood_exit (c : Int) (m : Machine) (h : MGood m) : RGood (exit c m) := by
  unfold exit
  simp only [h.2, if_true]
  exact ⟨MGood_filicide_once m h, fun _ => filicide_once_called m⟩

theorem RGood_running (m : Machine) (h : MGood m) : RGood (.running m) :=
  ⟨h, fun hc => absurd rfl hc⟩

theorem MGood_sys_waitid (idtype : Nat) (id : Int) (o : Nat) (m : Machine) (h : MGood m) :
    MGood (sys_waitid idtype id o m).2.2 := by
  unfold sys_waitid
  split
  · exact h
  · simp only
    split
    · exact h
    · exact MGood_emit _ _ (by simp) h

theorem MGood_sys_write (i : siginfo_t) (m : Machine) (h : MGood m) :
    MGood (sys_write i m).2 := by
  unfold sys_write
  split
  · exact MGood_emit m _ (by simp) h
  · exact MGood_emit { m with statusWrites := _ } _ (by simp) h

theorem MGood_handle_send_signal (s : supervise_send_signal) (m : Machine) (h : MGood m) :
    MGood (handle_send_signal s m) := by
  unfold handle_send_signal
  have := MGood_sys_waitid P_PID s.pid (WEXITED ||| WNOHANG ||| WNOWAIT) m h
  generalize sys_waitid P_PID s.pid (WEXITED ||| WNOHANG ||| WNOWAIT) m = w at *
  obtain ⟨r, f, m1⟩ := w
  simp only at *
  split
  · exact MGood_emit _ _ (by simp) this
  · exact this

theorem RGood_read_controlfd (reads : List CtlRead) (m : Machine) (h : MGood m) :
    RGood (read_controlfd reads m) := by
  induction reads generalizing m with
  | nil => exact RGood_running m h
  | cons r rest ih =>
    simp only [read_controlfd]
    split
    · exact RGood_exit 1 m h
    · split
      · split
        · exact RGood_exit 1 m h
        · exact ih _ (MGood_handle_send_signal _ _ h)
      · exact RGood_running m h

theorem RGood_read_fatalfd (reads : List SysRet) (m : Machine) (h : MGood m) :
    RGood (read_fatalfd reads m) := by
  induction reads generalizing m with
  | nil => exact RGood_running m h
  | cons r rest ih =>
    simp only [read_fatalfd]
    split
    · exact RGood_exit 1 m h
    · split
      · exact ih _ (MGood_filicide_once _ h)
      · exact RGood_running m h

theorem RGood_reap_loop (statusfd : Int) (fuel : Nat) (ci : siginfo_t) (m : Machine)
    (h : MGood m) (r : Res) (hr : reap_loop statusfd fuel ci m = some r) : RGood r := by
  induction fuel generalizing ci m with
  | zero => simp [reap_loop] at hr
  | succ f ih =>
    simp only [reap_loop] at hr
    have h1 := MGood_sys_waitid P_ALL 0 (WEXITED ||| WNOHANG) m h
    generalize sys_waitid P_ALL 0 (WEXITED ||| WNOHANG) m = w at *
    obtain ⟨ret, found, m1⟩ := w
    simp only at hr h1
    have h2 := fun i => MGood_sys_write i m1 h1
    split_ifs at hr with c1 c2 c3 c4 c5 c6
    · cases hr; exact RGood_exit 0 m1 h1
    · cases hr; exact RGood_running m1 h1
    · exact ih _ _ (h2 _) hr
    · cases hr; exact RGood_exit 1 _ (h2 _)
    · cases hr; exact RGood_exit 1 _ (h2 _)
    · exact ih _ _ (h2 _) hr
    · exact ih _ _ h1 hr

theorem andThen_some (r : Option Res) (f : Machine → Option Res) (x : Res)
    (h : andThen r f = some x) :
    (∃ m, r = some (.running m) ∧ f m = some x) ∨
    (∃ c m, r = some (.exited c m) ∧ x = .exited c m) := by
  unfold andThen at h
  split at h
  · next m => exact Or.inl ⟨m, rfl, h⟩
  · next other hne =>
    cases r with
    | none => cases h
    | some y =>
      cases y with
      | running m => exact absurd rfl (hne m)
      | exited c m => cases h; exact Or.inr ⟨c, m, rfl, rfl⟩

theorem RGood_read_childfd (statusfd : Int) (reads : List SysRet) (m : Machine)
    (h : MGood m) (r : Res) (hr : read_childfd statusfd reads m = some r) : RGood r := by
  induction reads generalizing m with
  | nil => simp only [read_childfd, Option.some.injEq] at hr; subst hr; exact RGood_running m h
  | cons x rest ih =>
    simp only [read_childfd] at hr
    split at hr
    · cases hr; exact RGood_exit 1 m h
    · split_ifs at hr
      · rcases andThen_some _ _ _ hr with ⟨m1, h1, h2⟩ | ⟨c, m1, h1, h2⟩
        · exact ih m1 (RGood_reap_loop _ _ _ _ h _ h1).1 h2
        · subst h2; exact RGood_reap_loop _ _ _ _ h _ h1
      · cases hr; exact RGood_running m h

theorem RGood_supervise_control (fds : Fds) (wk : Wake) (m : Machine) (h : MGood m) :
    RGood (supervise_control fds wk m) := by
  unfold supervise_control
  have hc := RGood_read_controlfd wk.controlReads m h
  simp only
  split
  · next m1 heq =>
    have h1 : MGood m1 := by
      split_ifs at heq
      · rw [heq] at hc; exact hc.1
      · cases heq; exact h
    split_ifs
    · apply RGood_running
      apply MGood_filicide_once
      exact MGood_emit m1 _ (by simp) h1
    · exact RGood_running m1 h1
  · next e hne =>
    split_ifs at hne ⊢
    · exact hc
    · exact absurd rfl (hne m)

theorem MGood_supervise_status (wk : Wake) (m : Machine) (h : MGood m) :
    MGood (supervise_status wk m) := by
  unfold supervise_status
  split_ifs
  · exact MGood_emit m _ (by simp) h
  · exact h

theorem RGood_supervise_child (fds : Fds) (wk : Wake) (m : Machine) (h : MGood m)
    (r : Res) (hr : supervise_child fds wk m = some r) : RGood r := by
  unfold supervise_child at hr
  split_ifs at hr
  · exact RGood_read_childfd _ _ _ h _ hr
  · cases hr; exact RGood_running m h

theorem RGood_supervise_fatal (fds : Fds) (wk : Wake) (m : Machine) (h : MGood m) :
    RGood (supervise_fatal fds wk m) := by
  unfold supervise_fatal
  split_ifs
  · exact RGood_read_fatalfd _ _ h
  · exact RGood_running m h

theorem RGood_supervise_check (fds : Fds) (wk : Wake) (m : Machine) (h : MGood m) :
    RGood (supervise_check fds wk m) := by
  unfold supervise_check
  split_ifs
  · exact RGood_exit 1 m h
  · exact RGood_running m h

theorem RGood_loop_body (fds : Fds) (wk : Wake) (m : Machine) (h : MGood m)
    (r : Res) (hr : loop_body fds wk m = some r) : RGood r := by
  unfold loop_body at hr
  have h0 : MGood { m with children := wk.children, statusWrites := wk.statusWrites } := h
  generalize ({ m with children := wk.children, statusWrites := wk.statusWrites } : Machine)
    = m' at *
  simp only at hr
  split at hr
  · cases hr; exact RGood_exit 1 m' h0
  · have g1 := RGood_supervise_control fds wk m' h0
    rcases andThen_some _ _ _ hr with ⟨m1, e1, hr1⟩ | ⟨c, m1, e1, e2⟩
    · rw [Option.some.injEq] at e1
      rw [e1] at g1
      have g2 := MGood_supervise_status wk m1 g1.1
      rcases andThen_some _ _ _ hr1 with ⟨m2, e2, hr2⟩ | ⟨c, m2, e2, e3⟩
      · have g3 := RGood_supervise_child fds wk _ g2 _ e2
        rcases andThen_some _ _ _ hr2 with ⟨m3, e3, hr3⟩ | ⟨c, m3, e3, e4⟩
        · have g4 := RGood_supervise_fatal fds wk m2 g3.1
          rw [Option.some.injEq] at e3
          rw [e3] at g4
          cases hr3
          exact RGood_supervise_check fds wk m3 g4.1
        · have g4 := RGood_supervise_fatal fds wk m2 g3.1
          rw [Option.some.injEq] at e3
          rw [e3] at g4
          subst e4; exact g4
      · subst e3; exact RGood_supervise_child fds wk _ g2 _ e2
    · rw [Option.some.injEq] at e1
      rw [e1] at g1
      subst e2; exact g1

theorem RGood_loop (fds : Fds) (wakes : List Wake) (m : Machine) (h : MGood m)
    (r : Res) (hr : loop fds wakes m = some r) : RGood r := by
  induction wakes generalizing m with
  | nil => simp only [loop, Option.some.injEq] at hr; subst hr; exact RGood_running m h
  | cons wk rest ih =>
    simp only [loop] at hr
    rcases andThen_some _ _ _ hr with ⟨m1, e1, hr1⟩ | ⟨c, m1, e1, e2⟩
    · exact ih m1 (RGood_loop_body fds wk m h _ e1).1 hr1
    · subst e2; exact RGood_loop_body fds wk m h _ e1

theorem MGood_initial (controlfd statusfd : Int) : MGood (initial controlfd statusfd) :=
  ⟨rfl, rfl⟩

theorem filter_selects_all (cs : List Child) : cs.filter (selects P_ALL 0) = cs := by
  apply List.filter_eq_self.2
  intro c _
  simp [selects]

theorem sys_waitid_all (m : Machine) :
    sys_waitid P_ALL 0 (WEXITED ||| WNOHANG) m =
      if m.children = [] then (.err ECHILD, none, m)
      else
        match m.children.find? (fun d => d.waitable) with
        | none => (.ok 0, none, m)
        | some d => (.ok 0, some d, m.reap d) := by
  unfold sys_waitid waitid
  rw [filter_selects_all]
  have hP : ¬ (P_ALL = P_PID ∧ (0 : Int) ≤ 0) := by decide
  have hO : ¬ ((WEXITED ||| WNOHANG) &&& WNOWAIT ≠ 0) := by decide
  simp only [hP, if_false, hO]
  cases hcs : m.children with
  | nil =>
    simp only [if_true]
    rw [← hcs]
  | cons c rest =>
    simp only [reduceCtorEq, if_false]
    cases hf : List.find? (fun d => d.waitable) (c :: rest) with
    | none => simp [← hcs]
    | some d => simp [Machine.reap, hcs]

theorem reap_loop_succ (statusfd : Int) (f : Nat) (ci : siginfo_t) (m : Machine) :
    reap_loop statusfd (f + 1) ci m =
      if m.children = [] then some (exit 0 m)
      else
        match m.children.find? (fun d => d.waitable) with
        | none => some (.running m)
        | some d =>
          if d.pid = 0 then some (.running (m.reap d))
          else if statusfd ≠ -1 then
            after_write (sys_write d.info (m.reap d)).1 (sys_write d.info (m.reap d)).2
              (reap_loop statusfd f d.info)
          else reap_loop statusfd f d.info (m.reap d) := by
  simp only [reap_loop, sys_waitid_all]
  by_cases hcs : m.children = []
  · simp [hcs, SysRet.ret, SysRet.errno]
  · simp only [hcs, if_false]
    cases hf : List.find? (fun d => d.waitable) m.children with
    | none => simp [SysRet.ret, SysRet.errno]
    | some d =>
      simp only [SysRet.ret, SysRet.errno, Child.info, after_write]
      simp

theorem reap_children_length (m : Machine) (d : Child)
    (h : m.children.find? (fun d => d.waitable) = some d) :
    (m.reap d).children.length + 1 = m.children.length := by
  have hm : d ∈ m.children := List.mem_of_find?_eq_some h
  simp only [Machine.reap, Machine.emit, List.length_erase_of_mem hm]
  have : 0 < m.children.length := List.length_pos_of_mem hm
  omega

theorem filicide_calls_le_one (m : Machine) (h : Inv m) : filicide_calls m ≤ 1 := by
  unfold Inv at h
  rw [h]
  split <;> omega

/-- C1: starting from `called_filicide = false`, any number `n ≥ 1` of calls of
`filicide_once` performs exactly one call of `filicide()`, leaves
`called_filicide` true, and every further call changes nothing; in every run
of `supervise` at most one call of `filicide()` is ever made. -/
theorem filicide_once_exactly_once (m : Machine) (n : Nat)
    (h0 : m.called_filicide = false) (hn : 1 ≤ n) :
    filicide_calls (filicide_once^[n] m) = filicide_calls m + 1 ∧
    (filicide_once^[n] m).called_filicide = true ∧
    (∀ k, filicide_once^[k] (filicide_once^[n] m) = filicide_once^[n] m) ∧
    (∀ controlfd statusfd childfd fatalfd wakes r,
      supervise controlfd statusfd childfd fatalfd wakes = some r →
        filicide_calls r.machine ≤ 1) := by
  obtain ⟨j, rfl⟩ : ∃ j, n = j + 1 := ⟨n - 1, by omega⟩
  rw [iterate_filicide_once]
  refine ⟨filicide_calls_once m h0, filicide_once_called m, ?_, ?_⟩
  · intro k
    cases k with
    | zero => rfl
    | succ i =>
      rw [iterate_filicide_once]
      exact filicide_once_of_called _ (filicide_once_called m)
  · intro controlfd statusfd childfd fatalfd wakes r hr
    exact filicide_calls_le_one _ (RGood_loop _ wakes _ (MGood_initial _ _) r hr).1.1

theorem filicide_once_exactly_once_witness :
    (initial 0 1).called_filicide = false ∧ 1 ≤ 3 ∧
    filicide_calls (filicide_once^[3] (initial 0 1)) = filicide_calls (initial 0 1) + 1 ∧
    (filicide_once^[3] (initial 0 1)).called_filicide = true :=
  ⟨rfl, by decide,
    (filicide_once_exactly_once (initial 0 1) 3 rfl (by decide)).1,
    (filicide_once_exactly_once (initial 0 1) 3 rfl (by decide)).2.1⟩

/-- C2: while `read_controlfd` processes whole control records, `kill(pid,
signal)` is issued exactly for the records whose `waitid` probe succeeds, in
order; nothing else happens (no exit, no other action, the table of children
is unchanged).  The probe succeeds exactly when `pid` is positive and the pid
of a child in the table, and the probe itself leaves the table as it was. -/
theorem control_records_signal_only_children (reads : List CtlRead) (m : Machine)
    (hw : ∀ r ∈ reads, r.ret = .ok sizeof_send_signal) :
    read_controlfd reads m =
      .running { m with trace := m.trace ++ kills_for m.children reads } ∧
    (∀ s : supervise_send_signal, handle_send_signal s m =
      if probe m.children s.pid then m.emit (.kill s.pid s.signal) else m) ∧
    (∀ pid, probe m.children pid = true ↔ (0 < pid ∧ ∃ c ∈ m.children, c.pid = pid)) ∧
    (∀ pid, (waitid P_PID pid probe_options m.children).2.2 = m.children) := by
  refine ⟨read_controlfd_whole reads m hw, fun s => handle_send_signal_eq s m, ?_, ?_⟩
  · intro pid
    unfold probe
    rw [decide_eq_true_eq]
    exact probe_iff _ _ _
  · intro pid
    exact waitid_nowait _ _ _ _ (by decide)

theorem control_records_signal_only_children_witness :
    (∀ r ∈ [(⟨.ok 8, ⟨100, 15⟩⟩ : CtlRead), ⟨.ok 8, ⟨55, 9⟩⟩],
      r.ret = .ok sizeof_send_signal) ∧
    read_controlfd [⟨.ok 8, ⟨100, 15⟩⟩, ⟨.ok 8, ⟨55, 9⟩⟩] one_child =
      .running { one_child with trace := [.kill 100 15] } :=
  ⟨by decide,
    (control_records_signal_only_children [⟨.ok 8, ⟨100, 15⟩⟩, ⟨.ok 8, ⟨55, 9⟩⟩] one_child
      (by decide)).1⟩

/-- C7: whenever a run of `supervise` ends in process termination, with
whatever exit code, exactly one call of `filicide()` has been made by then. -/
theorem exit_implies_filicide_exactly_once (controlfd statusfd childfd fatalfd : Int)
    (wakes : List Wake) (code : Int) (m : Machine)
    (h : supervise controlfd statusfd childfd fatalfd wakes = some (.exited code m)) :
    filicide_calls m = 1 := by
  have g := RGood_loop _ wakes _ (MGood_initial controlfd statusfd) _ h
  have hc : m.called_filicide = true := g.2 (by simp [Res.code])
  have hi : Inv m := g.1.1
  unfold Inv at hi
  rw [hi, hc]
  rfl

theorem exit_implies_filicide_exactly_once_witness :
    supervise 0 1 3 4 [wake_no_children] =
      some (.exited 0 { initial 0 1 with called_filicide := true, trace := [.filicide] }) ∧
    filicide_calls { initial 0 1 with called_filicide := true, trace := [.filicide] } = 1 :=
  ⟨by decide, exit_implies_filicide_exactly_once 0 1 3 4 [wake_no_children] 0 _ (by decide)⟩

theorem exit_cases (c : Int) (m : Machine) :
    exit c m = .exited c m ∨
    exit c m = .exited c { m with called_filicide := true, trace := m.trace ++ [.filicide] } := by
  unfold exit filicide_once filicide Machine.emit
  by_cases h1 : m.atexit_registered = true <;> by_cases h2 : m.called_filicide = true <;>
    simp [h1, h2]

theorem written_of_append (s t : List Event) :
    written_of (s ++ t) = written_of s ++ written_of t := by
  simp [written_of, List.filterMap_append]

theorem reaped_of_append (s t : List Event) :
    reaped_of (s ++ t) = reaped_of s ++ reaped_of t := by
  simp [reaped_of, List.filterMap_append]

theorem sys_write_spec (i : siginfo_t) (m : Machine) :
    ∃ w, sys_write i m = (w, { m with statusWrites := m.statusWrites.tail,
                                       trace := m.trace ++ [.status_write i w] }) ∧
      (w = .ok sizeof_siginfo ∨ w ∈ m.statusWrites) := by
  unfold sys_write
  cases h : m.statusWrites with
  | nil => exact ⟨.ok sizeof_siginfo, by simp, Or.inl rfl⟩
  | cons r rest => exact ⟨r, by simp, Or.inr (by simp)⟩

theorem after_write_benign (w : SysRet) (hw : benign w) (m2 : Machine)
    (k : Machine → Option Res) : after_write w m2 k = k m2 := by
  unfold after_write
  rcases hw with rfl | rfl
  · rw [if_neg (by decide), if_neg (by decide)]
  · rw [if_pos (by decide), if_pos (by decide)]

theorem reap_loop_all_waitable (statusfd : Int) (cs : List Child) (fuel : Nat)
    (ci : siginfo_t) (m : Machine) (hcs : m.children = cs)
    (hall : ∀ c ∈ cs, c.waitable = true ∧ c.pid ≠ 0)
    (hw : statusfd = -1 ∨ ∀ w ∈ m.statusWrites, benign w)
    (hfuel : cs.length < fuel) :
    ∃ m', reap_loop statusfd fuel ci m = some (.exited 0 m') ∧ m'.children = [] ∧
      reaped_of m'.trace = reaped_of m.trace ++ cs.map Child.info := by
  induction cs generalizing fuel ci m with
  | nil =>
    obtain ⟨f, rfl⟩ : ∃ f, fuel = f + 1 := ⟨fuel - 1, by omega⟩
    rw [reap_loop_succ, if_pos hcs]
    rcases exit_cases 0 m with e | e <;> rw [e]
    · exact ⟨_, rfl, hcs, by simp⟩
    · exact ⟨_, rfl, hcs, by simp [reaped_of_append, reaped_of]⟩
  | cons d rest ih =>
    obtain ⟨f, rfl⟩ : ∃ f, fuel = f + 1 := ⟨fuel - 1, by omega⟩
    have hd := hall d (by simp)
    have hf : List.find? (fun d => d.waitable) m.children = some d := by
      rw [hcs]; simp [hd.1]
    have he : m.children.erase d = rest := by rw [hcs]; simp
    have hrest : ∀ c ∈ rest, c.waitable = true ∧ c.pid ≠ 0 :=
      fun c hc => hall c (by simp [hc])
    have hlen : rest.length < f := by simp at hfuel; omega
    have htr : reaped_of (m.reap d).trace = reaped_of m.trace ++ [d.info] := by
      simp [Machine.reap, Machine.emit, reaped_of_append, reaped_of]
    rw [reap_loop_succ, if_neg (by rw [hcs]; simp), hf]
    simp only [hd.2, if_false]
    by_cases hfd : statusfd = -1
    · simp only [hfd, ne_eq, not_true_eq_false, if_false]
      obtain ⟨m', h1, h2, h3⟩ := ih f d.info (m.reap d)
        (by simp [Machine.reap, Machine.emit, he]) hrest (Or.inl hfd) hlen
      subst hfd
      exact ⟨m', h1, h2, by rw [h3, htr]; simp⟩
    · have hb : ∀ w ∈ m.statusWrites, benign w := hw.resolve_left hfd
      simp only [hfd, ne_eq, not_false_eq_true, if_true]
      obtain ⟨w, e, hmem⟩ := sys_write_spec d.info (m.reap d)
      have hwb : benign w := by
        rcases hmem with h | h
        · exact Or.inl h
        · exact hb w h
      rw [e, after_write_benign w hwb]
      obtain ⟨m', h1, h2, h3⟩ := ih f d.info
        { m.reap d with statusWrites := (m.reap d).statusWrites.tail,
                        trace := (m.reap d).trace ++ [.status_write d.info w] }
        (by simp [Machine.reap, Machine.emit, he]) hrest
        (Or.inr (fun x hx => hb x (List.mem_of_mem_tail hx))) hlen
      refine ⟨m', h1, h2, ?_⟩
      rw [h3]
      simp only [reaped_of_append, htr]
      simp [reaped_of]

/-- C5 (amended): when `waitid` reports that no children exist (`ECHILD`), the
reaper ends the process with exit code 0 at once.  When every child in the
table is waitable, one child-source notification makes `read_childfd` collect
every one of them, in order, and then exit with code 0, whether the status
channel is closed (`statusfd = -1`) or open, provided that every attempted
status write transfers the whole record or fails with `EPIPE`. -/
theorem all_waitable_reaped_then_exit_zero (statusfd : Int) (rest : List SysRet)
    (m : Machine)
    (hall : ∀ c ∈ m.children, c.waitable = true ∧ c.pid ≠ 0)
    (hw : statusfd = -1 ∨ ∀ w ∈ m.statusWrites, w = .ok sizeof_siginfo ∨ w = .err EPIPE) :
    (∃ m', read_childfd statusfd (.ok sizeof_signalfd_siginfo :: rest) m =
        some (.exited 0 m') ∧ m'.children = [] ∧
      reaped_of m'.trace = reaped_of m.trace ++ m.children.map Child.info) ∧
    (∀ (fuel : Nat) (ci : siginfo_t) (m0 : Machine),
      (sys_waitid P_ALL 0 (WEXITED ||| WNOHANG) m0).1 = .err ECHILD →
        reap_loop statusfd (fuel + 1) ci m0 = some (exit 0 m0)) := by
  constructor
  · obtain ⟨m', h1, h2, h3⟩ := reap_loop_all_waitable statusfd m.children
      (m.children.length + 1) childinfo_zero m rfl hall hw (by omega)
    refine ⟨m', ?_, h2, h3⟩
    simp only [read_childfd, try_function]
    rw [if_pos (by decide), h1]
    rfl
  · intro fuel ci m0 h
    rw [sys_waitid_all] at h
    by_cases hcs : m0.children = []
    · rw [reap_loop_succ, if_pos hcs]
    · rw [if_neg hcs] at h
      split at h <;> simp at h

theorem all_waitable_reaped_then_exit_zero_witness :
    (∀ c ∈ two_zombies_peer_gone.children, c.waitable = true ∧ c.pid ≠ 0) ∧
    ((1 : Int) = -1 ∨
      ∀ w ∈ two_zombies_peer_gone.statusWrites, w = .ok sizeof_siginfo ∨ w = .err EPIPE) ∧
    ∃ m', read_childfd 1 [.ok sizeof_signalfd_siginfo] two_zombies_peer_gone =
        some (.exited 0 m') ∧ m'.children = [] ∧
      reaped_of m'.trace = reaped_of two_zombies_peer_gone.trace ++
        two_zombies_peer_gone.children.map Child.info :=
  ⟨by decide, Or.inr (by decide),
    (all_waitable_reaped_then_exit_zero 1 [] two_zombies_peer_gone (by decide)
      (Or.inr (by decide))).1⟩

/-- C5 as stated fails: with the status channel open, every child waitable and
one notification pending, a status write failing with `EIO` ends the process
with exit code 1 after the first child, the second child still in the table. -/
theorem all_waitable_exit_zero_counterexample :
    (∀ c ∈ two_zombies_write_error.children, c.waitable = true ∧ c.pid ≠ 0) ∧
    (read_childfd 1 [.ok sizeof_signalfd_siginfo] two_zombies_write_error).map Res.code
      = some (some 1) ∧
    (read_childfd 1 [.ok sizeof_signalfd_siginfo] two_zombies_write_error).map
      (fun r => r.machine.children.map Child.pid) = some [102] := by
  decide

theorem observe_append (s t : List Event) : observe (s ++ t) = observe s ++ observe t := by
  simp [observe]

theorem Sim_emit (a b : Machine) (e : Event) (h : Sim a b) : Sim (a.emit e) (b.emit e) := by
  obtain ⟨h1, h2, h3, h4, h5, h6, h7, h8⟩ := h
  exact ⟨h1, h2, h3, h4, by simp [Machine.emit, observe_append, h5], h6, h7, h8⟩

theorem Sim_emit_left (a b : Machine) (e : Event) (he : e.observable = false)
    (h : Sim a b) : Sim (a.emit e) b := by
  obtain ⟨h1, h2, h3, h4, h5, h6, h7, h8⟩ := h
  refine ⟨h1, h2, h3, h4, ?_, h6, h7, h8⟩
  show observe (a.trace ++ [e]) = observe b.trace
  rw [observe_append, h5]
  simp [observe, he]

theorem Sim_filicide_once (a b : Machine) (h : Sim a b) :
    Sim (filicide_once a) (filicide_once b) := by
  have h1 := h.1
  unfold filicide_once
  rw [← h1]
  split
  · have := Sim_emit a b .filicide h
    obtain ⟨_, g2, g3, g4, g5, g6, g7, g8⟩ := this
    exact ⟨rfl, g2, g3, g4, g5, g6, g7, g8⟩
  · exact h

theorem SimR_exit (c : Int) (a b : Machine) (h : Sim a b) : SimR (exit c a) (exit c b) := by
  unfold exit
  rw [← h.2.1]
  refine ⟨rfl, ?_⟩
  simp only [Res.machine]
  split
  · exact Sim_filicide_once a b h
  · exact h

theorem SimR_running (a b : Machine) (h : Sim a b) : SimR (.running a) (.running b) :=
  ⟨rfl, h⟩

theorem Sim_handle_send_signal (s : supervise_send_signal) (a b : Machine) (h : Sim a b) :
    Sim (handle_send_signal s a) (handle_send_signal s b) := by
  rw [handle_send_signal_eq, handle_send_signal_eq, h.2.2.2.1]
  split
  · exact Sim_emit a b _ h
  · exact h

theorem SimR_read_controlfd (reads : List CtlRead) (a b : Machine) (h : Sim a b) :
    SimR (read_controlfd reads a) (read_controlfd reads b) := by
  induction reads generalizing a b with
  | nil => exact SimR_running a b h
  | cons r rest ih =>
    simp only [read_controlfd]
    split
    · exact SimR_exit 1 a b h
    · split
      · split
        · exact SimR_exit 1 a b h
        · exact ih _ _ (Sim_handle_send_signal _ a b h)
      · exact SimR_running a b h

theorem SimR_read_fatalfd (reads : List SysRet) (a b : Machine) (h : Sim a b) :
    SimR (read_fatalfd reads a) (read_fatalfd reads b) := by
  induction reads generalizing a b with
  | nil => exact SimR_running a b h
  | cons r rest ih =>
    simp only [read_fatalfd]
    split
    · exact SimR_exit 1 a b h
    · split
      · exact ih _ _ (Sim_filicide_once a b h)
      · exact SimR_running a b h

theorem Sim_reap (a b : Machine) (d : Child) (h : Sim a b) : Sim (a.reap d) (b.reap d) := by
  obtain ⟨h1, h2, h3, h4, h5, h6, h7, h8⟩ := h
  unfold Machine.reap
  apply Sim_emit
  exact ⟨h1, h2, h3, by simp [h4], h5, h6, h7, h8⟩

theorem OSim_of_some (ra rb : Res) (h : SimR ra rb) : OSim (some ra) (some rb) :=
  ⟨ra, rb, rfl, rfl, h⟩

theorem OSim_reap_loop (statusfd : Int) (fuel : Nat) (ci ci' : siginfo_t) (a b : Machine)
    (h : Sim a b) (hfuel : a.children.length < fuel) :
    OSim (reap_loop statusfd fuel ci a) (reap_loop (-1) fuel ci' b) := by
  induction fuel generalizing ci ci' a b with
  | zero => omega
  | succ f ih =>
    have hc : a.children = b.children := h.2.2.2.1
    rw [reap_loop_succ, reap_loop_succ, ← hc]
    by_cases hcs : a.children = []
    · rw [if_pos hcs, if_pos hcs]
      exact OSim_of_some _ _ (SimR_exit 0 a b h)
    · rw [if_neg hcs, if_neg hcs]
      cases hf : List.find? (fun d => d.waitable) a.children with
      | none => exact OSim_of_some _ _ (SimR_running a b h)
      | some d =>
        have hs := Sim_reap a b d h
        have hl := reap_children_length a d hf
        simp only
        by_cases hp : d.pid = 0
        · rw [if_pos hp, if_pos hp]
          exact OSim_of_some _ _ (SimR_running _ _ hs)
        · by_cases hfd : statusfd = -1
          · subst hfd
            simp only [hp, if_false, ne_eq, not_true_eq_false]
            exact ih _ _ _ _ hs (by omega)
          · simp only [hp, hfd, if_false, if_true, ne_eq, not_true_eq_false,
              not_false_eq_true]
            obtain ⟨w, e, hmem⟩ := sys_write_spec d.info (a.reap d)
            have hb : benign w := by
              rcases hmem with hw | hw
              · exact Or.inl hw
              · exact hs.2.2.2.2.2.2.2 w hw
            rw [e, after_write_benign w hb]
            apply ih
            · obtain ⟨h1, h2, h3, h4, h5, h6, h7, h8⟩ := hs
              refine ⟨h1, h2, h3, h4, ?_, h6, h7, fun x hx => h8 x (List.mem_of_mem_tail hx)⟩
              show observe ((a.reap d).trace ++ [.status_write d.info w]) = _
              rw [observe_append, h5]
              simp [observe, Event.observable]
            · have : (a.reap d).children.length < f := by omega
              exact this

theorem OSim_andThen (x y : Option Res) (f g : Machine → Option Res) (h : OSim x y)
    (hfg : ∀ a b, Sim a b → OSim (f a) (g b)) : OSim (andThen x f) (andThen y g) := by
  obtain ⟨ra, rb, rfl, rfl, hc, hm⟩ := h
  cases ra with
  | running a =>
    cases rb with
    | running b => exact hfg a b hm
    | exited c b => simp [Res.code] at hc
  | exited c a =>
    cases rb with
    | running b => simp [Res.code] at hc
    | exited c' b => exact ⟨_, _, rfl, rfl, hc, hm⟩

theorem OSim_read_childfd (statusfd : Int) (reads : List SysRet) (a b : Machine)
    (h : Sim a b) : OSim (read_childfd statusfd reads a) (read_childfd (-1) reads b) := by
  induction reads generalizing a b with
  | nil => exact OSim_of_some _ _ (SimR_running a b h)
  | cons r rest ih =>
    simp only [read_childfd]
    split
    · exact OSim_of_some _ _ (SimR_exit 1 a b h)
    · split_ifs
      · apply OSim_andThen
        · rw [← h.2.2.2.1]
          exact OSim_reap_loop _ _ _ _ a b h (by omega)
        · exact ih
      · exact OSim_of_some _ _ (SimR_running a b h)

theorem SimR_supervise_control (fds : Fds) (wk : Wake) (a b : Machine) (h : Sim a b) :
    SimR (supervise_control fds wk a) (supervise_control fds wk b) := by
  unfold supervise_control
  rw [← h.2.2.1]
  have hc : SimR
      (if revents a.pollfd0 wk.ready0 &&& POLLIN ≠ 0 then read_controlfd wk.controlReads a
        else Res.running a)
      (if revents a.pollfd0 wk.ready0 &&& POLLIN ≠ 0 then read_controlfd wk.controlReads b
        else Res.running b) := by
    split
    · exact SimR_read_controlfd _ a b h
    · exact SimR_running a b h
  simp only
  generalize (if revents a.pollfd0 wk.ready0 &&& POLLIN ≠ 0 then
    read_controlfd wk.controlReads a else Res.running a) = ra at hc
  generalize (if revents a.pollfd0 wk.ready0 &&& POLLIN ≠ 0 then
    read_controlfd wk.controlReads b else Res.running b) = rb at hc
  obtain ⟨hcode, hm⟩ := hc
  cases ra with
  | running a1 =>
    cases rb with
    | running b1 =>
      simp only
      split
      · apply SimR_running
        apply Sim_filicide_once
        obtain ⟨h1, h2, h3, h4, h5, h6, h7, h8⟩ := Sim_emit a1 b1 (.close fds.controlfd) hm
        exact ⟨h1, h2, rfl, h4, h5, h6, h7, h8⟩
      · exact SimR_running a1 b1 hm
    | exited c b1 => simp [Res.code] at hcode
  | exited c a1 =>
    cases rb with
    | running b1 => simp [Res.code] at hcode
    | exited c' b1 => exact ⟨hcode, hm⟩

theorem revents_closed (ready : Nat) : revents (-1) ready = 0 := by
  simp [revents]

theorem supervise_status_closed (wk : Wake) (b : Machine) (h : b.pollfd1 = -1) :
    supervise_status wk b = b := by
  unfold supervise_status
  rw [h, revents_closed]
  simp

theorem Sim_supervise_status (wk : Wake) (a b : Machine) (h : Sim a b) :
    Sim (supervise_status wk a) (supervise_status wk b) := by
  rw [supervise_status_closed wk b h.2.2.2.2.2.2.1]
  unfold supervise_status
  split
  · obtain ⟨h1, h2, h3, h4, h5, h6, h7, h8⟩ :=
      Sim_emit_left a b (.close a.statusfd) rfl h
    exact ⟨h1, h2, h3, h4, h5, h6, h7, h8⟩
  · exact h

theorem OSim_supervise_child (fds : Fds) (wk : Wake) (a b : Machine) (h : Sim a b) :
    OSim (supervise_child fds wk a) (supervise_child fds wk b) := by
  unfold supervise_child
  rw [h.2.2.2.2.2.1]
  split
  · exact OSim_read_childfd _ _ a b h
  · exact OSim_of_some _ _ (SimR_running a b h)

theorem SimR_supervise_fatal (fds : Fds) (wk : Wake) (a b : Machine) (h : Sim a b) :
    SimR (supervise_fatal fds wk a) (supervise_fatal fds wk b) := by
  unfold supervise_fatal
  split
  · exact SimR_read_fatalfd _ a b h
  · exact SimR_running a b h

theorem SimR_supervise_check (fds : Fds) (wk : Wake) (a b : Machine) (h : Sim a b) :
    SimR (supervise_check fds wk a) (supervise_check fds wk b) := by
  unfold supervise_check
  split
  · exact SimR_exit 1 a b h
  · exact SimR_running a b h

theorem OSim_loop_body (fds : Fds) (wk : Wake) (a b : Machine)
    (h : Sim { a with children := wk.children, statusWrites := wk.statusWrites }
      { b with children := wk.children, statusWrites := wk.statusWrites }) :
    OSim (loop_body fds wk a) (loop_body fds wk b) := by
  unfold loop_body
  simp only
  split
  · exact OSim_of_some _ _ (SimR_exit 1 _ _ h)
  · apply OSim_andThen _ _ _ _ (OSim_of_some _ _ (SimR_supervise_control fds wk _ _ h))
    intro a1 b1 h1
    apply OSim_andThen _ _ _ _
      (OSim_supervise_child fds wk _ _ (Sim_supervise_status wk a1 b1 h1))
    intro a2 b2 h2
    apply OSim_andThen _ _ _ _ (OSim_of_some _ _ (SimR_supervise_fatal fds wk _ _ h2))
    intro a3 b3 h3
    exact OSim_of_some _ _ (SimR_supervise_check fds wk _ _ h3)

theorem kills_of_observe (t : List Event) : kills_of (observe t) = kills_of t := by
  induction t with
  | nil => rfl
  | cons e rest ih =>
    cases e <;> simp_all [observe, kills_of, Event.observable, List.filter_cons]

theorem reaped_of_observe (t : List Event) : reaped_of (observe t) = reaped_of t := by
  induction t with
  | nil => rfl
  | cons e rest ih =>
    cases e <;> simp_all [observe, reaped_of, Event.observable, List.filter_cons]

theorem count_filicide_observe (t : List Event) :
    (observe t).count .filicide = t.count .filicide := by
  induction t with
  | nil => rfl
  | cons e rest ih =>
    cases e <;> simp_all [observe, Event.observable, List.filter_cons, List.count_cons]

theorem Closed_emit (W : List siginfo_t) (m : Machine) (e : Event)
    (he : written_of [e] = []) (h : Closed W m) : Closed W (m.emit e) := by
  refine ⟨h.1, ?_⟩
  show written_of (m.trace ++ [e]) = W
  rw [written_of_append, he, h.2, List.append_nil]

theorem Closed_filicide_once (W : List siginfo_t) (m : Machine) (h : Closed W m) :
    Closed W (filicide_once m) := by
  unfold filicide_once
  split
  · exact Closed_emit W m .filicide rfl h
  · exact h

theorem Closed_exit (W : List siginfo_t) (c : Int) (m : Machine) (h : Closed W m) :
    Closed W (exit c m).machine := by
  unfold exit
  simp only [Res.machine]
  split
  · exact Closed_filicide_once W m h
  · exact h

theorem Closed_handle_send_signal (W : List siginfo_t) (s : supervise_send_signal)
    (m : Machine) (h : Closed W m) : Closed W (handle_send_signal s m) := by
  rw [handle_send_signal_eq]
  split
  · exact Closed_emit W m _ rfl h
  · exact h

theorem Closed_read_controlfd (W : List siginfo_t) (reads : List CtlRead) (m : Machine)
    (h : Closed W m) : Closed W (read_controlfd reads m).machine := by
  induction reads generalizing m with
  | nil => exact h
  | cons r rest ih =>
    simp only [read_controlfd]
    split
    · exact Closed_exit W 1 m h
    · split
      · split
        · exact Closed_exit W 1 m h
        · exact ih _ (Closed_handle_send_signal W _ m h)
      · exact h

theorem Closed_read_fatalfd (W : List siginfo_t) (reads : List SysRet) (m : Machine)
    (h : Closed W m) : Closed W (read_fatalfd reads m).machine := by
  induction reads generalizing m with
  | nil => exact h
  | cons r rest ih =>
    simp only [read_fatalfd]
    split
    · exact Closed_exit W 1 m h
    · split
      · exact ih _ (Closed_filicide_once W m h)
      · exact h

theorem Closed_reap (W : List siginfo_t) (m : Machine) (d : Child) (h : Closed W m) :
    Closed W (m.reap d) := by
  unfold Machine.reap
  exact Closed_emit W { m with children := m.children.erase d } _ rfl h

theorem Closed_reap_loop (W : List siginfo_t) (fuel : Nat) (ci : siginfo_t) (m : Machine)
    (h : Closed W m) (r : Res) (hr : reap_loop (-1) fuel ci m = some r) :
    Closed W r.machine := by
  induction fuel generalizing ci m with
  | zero => simp [reap_loop] at hr
  | succ f ih =>
    rw [reap_loop_succ] at hr
    by_cases hcs : m.children = []
    · rw [if_pos hcs] at hr
      cases hr
      exact Closed_exit W 0 m h
    · rw [if_neg hcs] at hr
      cases hf : List.find? (fun d => d.waitable) m.children with
      | none => rw [hf] at hr; cases hr; exact h
      | some d =>
        rw [hf] at hr
        simp only [ne_eq, not_true_eq_false, if_false] at hr
        split at hr
        · cases hr; exact Closed_reap W m d h
        · exact ih _ _ (Closed_reap W m d h) hr

theorem Closed_read_childfd (W : List siginfo_t) (reads : List SysRet) (m : Machine)
    (h : Closed W m) (r : Res) (hr : read_childfd (-1) reads m = some r) :
    Closed W r.machine := by
  induction reads generalizing m with
  | nil => simp only [read_childfd, Option.some.injEq] at hr; subst hr; exact h
  | cons x rest ih =>
    simp only [read_childfd] at hr
    split at hr
    · cases hr; exact Closed_exit W 1 m h
    · split_ifs at hr
      · rcases andThen_some _ _ _ hr with ⟨m1, h1, h2⟩ | ⟨c, m1, h1, h2⟩
        · exact ih m1 (Closed_reap_loop W _ _ _ h _ h1) h2
        · subst h2; exact Closed_reap_loop W _ _ _ h _ h1
      · cases hr; exact h

theorem Closed_loop_body (W : List siginfo_t) (fds : Fds) (wk : Wake) (m : Machine)
    (h : Closed W m) (r : Res) (hr : loop_body fds wk m = some r) :
    Closed W r.machine := by
  unfold loop_body at hr
  have h0 : Closed W { m with children := wk.children, statusWrites := wk.statusWrites } := h
  generalize ({ m with children := wk.children, statusWrites := wk.statusWrites } : Machine)
    = m' at *
  simp only at hr
  split at hr
  · cases hr; exact Closed_exit W 1 m' h0
  · have g1 : Closed W (supervise_control fds wk m').machine := by
      unfold supervise_control
      have hc : Closed W (if revents m'.pollfd0 wk.ready0 &&& POLLIN ≠ 0 then
          read_controlfd wk.controlReads m' else Res.running m').machine := by
        split
        · exact Closed_read_controlfd W _ m' h0
        · exact h0
      simp only
      generalize (if revents m'.pollfd0 wk.ready0 &&& POLLIN ≠ 0 then
        read_controlfd wk.controlReads m' else Res.running m') = rc at hc
      cases rc with
      | running m1 =>
        simp only
        split
        · apply Closed_filicide_once
          exact Closed_emit W m1 (.close fds.controlfd) rfl hc
        · exact hc
      | exited c m1 => exact hc
    rcases andThen_some _ _ _ hr with ⟨m1, e1, hr1⟩ | ⟨c, m1, e1, e2⟩
    · rw [Option.some.injEq] at e1
      rw [e1] at g1
      have g2 : Closed W (supervise_status wk m1) := by
        unfold supervise_status
        split
        · exact ⟨rfl, (Closed_emit W m1 (.close m1.statusfd) rfl g1).2⟩
        · exact g1
      rcases andThen_some _ _ _ hr1 with ⟨m2, e2, hr2⟩ | ⟨c, m2, e2, e3⟩
      · have g3 : Closed W m2 := by
          unfold supervise_child at e2
          split at e2
          · rw [g2.1] at e2
            exact Closed_read_childfd W _ _ g2 _ e2
          · cases e2; exact g2
        have g4 : Closed W (supervise_fatal fds wk m2).machine := by
          unfold supervise_fatal
          split
          · exact Closed_read_fatalfd W _ m2 g3
          · exact g3
        rcases andThen_some _ _ _ hr2 with ⟨m3, e3, hr3⟩ | ⟨c, m3, e3, e4⟩
        · rw [Option.some.injEq] at e3
          rw [e3] at g4
          cases hr3
          unfold supervise_check
          split
          · exact Closed_exit W 1 m3 g4
          · exact g4
        · rw [Option.some.injEq] at e3
          rw [e3] at g4
          subst e4; exact g4
      · subst e3
        unfold supervise_child at e2
        split at e2
        · rw [g2.1] at e2
          exact Closed_read_childfd W _ _ g2 _ e2
        · cases e2
    · rw [Option.some.injEq] at e1
      rw [e1] at g1
      subst e2; exact g1

/-- C9 (amended): for every wake in which every status write attempted either
transfers the whole record or fails with `EPIPE`, the loop body run with the
status channel open and run with it closed (`statusfd = -1`) both return, with
the same exit decision, the same signals delivered, the same children reaped,
the same number of `filicide()` calls and the same table of children left; the
closed run performs no status write. -/
theorem status_channel_noninterference (fds : Fds) (wk : Wake) (m : Machine)
    (hw : ∀ w ∈ wk.statusWrites, w = .ok sizeof_siginfo ∨ w = .err EPIPE) :
    ∃ ro rc, loop_body fds wk m = some ro ∧
      loop_body fds wk { m with statusfd := -1, pollfd1 := -1 } = some rc ∧
      ro.code = rc.code ∧
      kills_of ro.machine.trace = kills_of rc.machine.trace ∧
      reaped_of ro.machine.trace = reaped_of rc.machine.trace ∧
      filicide_calls ro.machine = filicide_calls rc.machine ∧
      ro.machine.children = rc.machine.children ∧
      written_of rc.machine.trace = written_of m.trace := by
  have hs : Sim { m with children := wk.children, statusWrites := wk.statusWrites }
      { ({ m with statusfd := -1, pollfd1 := -1 } : Machine) with
        children := wk.children, statusWrites := wk.statusWrites } :=
    ⟨rfl, rfl, rfl, rfl, rfl, rfl, rfl, hw⟩
  obtain ⟨ro, rc, h1, h2, hc, hm⟩ := OSim_loop_body fds wk m _ hs
  have hcl := Closed_loop_body (written_of m.trace) fds wk
    { m with statusfd := -1, pollfd1 := -1 } ⟨rfl, rfl⟩ rc h2
  obtain ⟨g1, g2, g3, g4, g5, g6, g7, g8⟩ := hm
  refine ⟨ro, rc, h1, h2, hc, ?_, ?_, ?_, g4, hcl.2⟩
  · rw [← kills_of_observe, g5, kills_of_observe]
  · rw [← reaped_of_observe, g5, reaped_of_observe]
  · unfold filicide_calls
    rw [← count_filicide_observe, g5, count_filicide_observe]

theorem status_channel_noninterference_witness :
    (∀ w ∈ wake_peer_gone.statusWrites, w = .ok sizeof_siginfo ∨ w = .err EPIPE) ∧
    ∃ ro rc, loop_body fds0 wake_peer_gone (initial 0 1) = some ro ∧
      loop_body fds0 wake_peer_gone { initial 0 1 with statusfd := -1, pollfd1 := -1 }
        = some rc ∧
      ro.code = rc.code ∧
      kills_of ro.machine.trace = kills_of rc.machine.trace ∧
      reaped_of ro.machine.trace = reaped_of rc.machine.trace ∧
      filicide_calls ro.machine = filicide_calls rc.machine ∧
      ro.machine.children = rc.machine.children ∧
      written_of rc.machine.trace = written_of (initial 0 1).trace :=
  ⟨by decide, status_channel_noninterference fds0 wake_peer_gone (initial 0 1) (by decide)⟩

/-- C9 as stated fails: in a wake whose status write fails with `EIO` the run
with the status channel open exits with code 1 after calling `filicide()`,
the run with the channel closed keeps running and calls nothing. -/
theorem status_channel_noninterference_counterexample :
    (loop_body fds0 wake_write_error (initial 0 1)).map
      (fun r => (r.code, filicide_calls r.machine)) = some (some 1, 1) ∧
    (loop_body fds0 wake_write_error { initial 0 1 with statusfd := -1, pollfd1 := -1 }).map
      (fun r => (r.code, filicide_calls r.machine)) = some (none, 0) := by
  decide

theorem read_controlfd_whole_then (pre reads : List CtlRead) (m : Machine)
    (hw : ∀ r ∈ pre, r.ret = .ok sizeof_send_signal) :
    read_controlfd (pre ++ reads) m =
      read_controlfd reads { m with trace := m.trace ++ kills_for m.children pre } := by
  induction pre generalizing m with
  | nil => simp [kills_for]
  | cons r rest ih =>
    have hr : r.ret = .ok sizeof_send_signal := hw r (by simp)
    have hrest : ∀ r ∈ rest, r.ret = .ok sizeof_send_signal :=
      fun x hx => hw x (by simp [hx])
    rw [List.cons_append]
    simp only [read_controlfd, hr, try_function]
    rw [if_pos (by decide), if_neg (by decide), ih _ hrest, handle_send_signal_eq]
    by_cases hp : probe m.children r.signal.pid = true
    · simp [hp, kills_for, Machine.emit, List.filter_cons]
    · simp [hp, kills_for, List.filter_cons]

/-- C8 (amended): when a read on the control channel returns zero bytes,
`read_controlfd` returns without ending the process, having issued only the
kills of the whole records read before; it reports nothing to the loop.  The
loop closes the control channel and calls `filicide_once` in that wake exactly
when `poll` reported one of `POLLERR`, `POLLNVAL`, `POLLRDHUP`, `POLLHUP` for the
control channel; otherwise the flag and the number of `filicide()` calls are
as before. -/
theorem control_eof_shutdown_only_on_closed_flags (fds : Fds) (wk : Wake) (m : Machine)
    (pre rest : List CtlRead) (s : supervise_send_signal)
    (hin : revents m.pollfd0 wk.ready0 &&& POLLIN ≠ 0)
    (hpre : ∀ r ∈ pre, r.ret = .ok sizeof_send_signal)
    (hreads : wk.controlReads = pre ++ ⟨.ok 0, s⟩ :: rest) :
    read_controlfd wk.controlReads m =
      .running { m with trace := m.trace ++ kills_for m.children pre } ∧
    supervise_control fds wk m =
      .running (if revents m.pollfd0 wk.ready0 &&& closedMask ≠ 0 then
        filicide_once
          { sys_close fds.controlfd
              { m with trace := m.trace ++ kills_for m.children pre } with pollfd0 := -1 }
        else { m with trace := m.trace ++ kills_for m.children pre }) ∧
    (revents m.pollfd0 wk.ready0 &&& closedMask ≠ 0 →
      (supervise_control fds wk m).machine.called_filicide = true) ∧
    (revents m.pollfd0 wk.ready0 &&& closedMask = 0 →
      (supervise_control fds wk m).machine.called_filicide = m.called_filicide ∧
      filicide_calls (supervise_control fds wk m).machine = filicide_calls m) := by
  have h1 : read_controlfd wk.controlReads m =
      .running { m with trace := m.trace ++ kills_for m.children pre } := by
    rw [hreads, read_controlfd_whole_then pre _ m hpre]
    simp [read_controlfd, try_function]
  have h2 : supervise_control fds wk m =
      .running (if revents m.pollfd0 wk.ready0 &&& closedMask ≠ 0 then
        filicide_once
          { sys_close fds.controlfd
              { m with trace := m.trace ++ kills_for m.children pre } with pollfd0 := -1 }
        else { m with trace := m.trace ++ kills_for m.children pre }) := by
    unfold supervise_control
    simp only [if_pos hin, h1]
    by_cases hc : revents m.pollfd0 wk.ready0 &&& closedMask ≠ 0
    · rw [if_pos hc, if_pos hc]
    · rw [if_neg hc, if_neg hc]
  refine ⟨h1, h2, ?_, ?_⟩
  · intro hc
    rw [h2, if_pos hc]
    exact filicide_once_called _
  · intro hc
    rw [h2, if_neg (by simp [hc])]
    refine ⟨rfl, ?_⟩
    simp only [Res.machine, filicide_calls, List.count_append]
    have : List.count Event.filicide (kills_for m.children pre) = 0 := by
      rw [List.count_eq_zero]
      simp [kills_for]
    omega

theorem control_eof_shutdown_only_on_closed_flags_witness :
    revents (initial 0 1).pollfd0 wake_control_eof.ready0 &&& POLLIN ≠ 0 ∧
    (∀ r ∈ ([] : List CtlRead), r.ret = .ok sizeof_send_signal) ∧
    wake_control_eof.controlReads = [] ++ ⟨.ok 0, ⟨0, 0⟩⟩ :: [] ∧
    read_controlfd wake_control_eof.controlReads (initial 0 1) =
      .running { initial 0 1 with
        trace := (initial 0 1).trace ++ kills_for (initial 0 1).children [] } :=
  ⟨by decide, by decide, rfl,
    (control_eof_shutdown_only_on_closed_flags fds0 wake_control_eof (initial 0 1) [] []
      ⟨0, 0⟩ (by decide) (by decide) rfl).1⟩

/-- C8 as stated fails: `poll` reports the control channel readable and
nothing more, the read returns zero bytes; after the wake `filicide_once` has
not been called and nothing has been done. -/
theorem control_eof_no_shutdown_counterexample :
    (loop_body fds0 wake_control_eof (initial 0 1)).map
      (fun r => (r.code, r.machine.called_filicide, r.machine.pollfd0, r.machine.trace)) =
    some (none, false, 0, []) := by
  decide

end Supervise
